import Mathlib

/-!
Verification of the hedgegram-bot control plane against its specification.

The definitions below are a shallow embedding of the Python sources
(src/main.py, src/live_engine.py, src/paper_engine.py, src/telegram_bot.py).
Prices are modelled as rationals, Python round(x, 2) as half-even rounding to
hundredths, Python dict keys that may be absent as Option fields (Python
truthiness of strings: None and the empty string are falsy), exceptions as
Except values, and HTTP calls as oracle arguments supplying the upstream
response or the raised exception.
-/

/-- Embedding of Python round(x, 2): round half to even at the second decimal. -/
def halfEvenInt (x : ℚ) : ℤ :=
  let n : ℤ := Int.floor x
  let f : ℚ := x - (n : ℚ)
  if f < 1/2 then n
  else if 1/2 < f then n + 1
  else if n % 2 = 0 then n else n + 1

/-- Python round(x, 2) on a rational value. -/
def pyRound2 (x : ℚ) : ℚ := ((halfEvenInt (x * 100) : ℤ) : ℚ) / 100

/-- Trading mode string of main.py: runtime_mode is "paper" or "live". -/
inductive TradeMode where
  | paper
  | live
deriving DecidableEq

/-- Contents of live_auth.json as read through dict.get: jwtToken and sid keys,
each possibly absent. -/
structure LAuth where
  jwtToken : Option String
  sid : Option String
deriving DecidableEq

/-- A position dict as consumed by main.py (keys qty, avg_price, ltp, symbol,
with the numeric defaults of p.get already applied). -/
structure MainPos where
  symbol : String
  qty : Int
  avg_price : ℚ
  ltp : ℚ
deriving DecidableEq

/-- main.py compute_pnl: sums (ltp - avg_price) * qty over the list and rounds
the total to 2 decimals. -/
def compute_pnl (ps : List MainPos) : ℚ :=
  pyRound2 (ps.foldl (fun acc p => acc + (p.ltp - p.avg_price) * (p.qty : ℚ)) 0)

/-- main.py paper_fetch_positions: the fixed mock position list. -/
def paper_fetch_positions : List MainPos :=
  [ { symbol := "FINNIFTY-MONTH-CE-5OTM", qty := 65, avg_price := 100, ltp := 104.5 },
    { symbol := "FINNIFTY-MONTH-PE-5OTM", qty := -65, avg_price := 90, ltp := 87 } ]

/-- main.py live_fetch_positions: returns [] when jwtToken or sid is falsy
(absent or empty), [] when the HTTP call raises, [] on a non-200 status, and
the response body on a 200 status.  The upstream oracle is the outcome of the
requests.get call: an exception message, or a status code with a parsed body. -/
def live_fetch_positions (auth : LAuth) (u : Except String (Nat × List MainPos)) :
    List MainPos :=
  match auth.jwtToken, auth.sid with
  | some jwt, some sid =>
    if jwt = "" ∨ sid = "" then []
    else
      match u with
      | .error _ => []
      | .ok (status, body) => if status = 200 then body else []
  | _, _ => []

/-- The mutable module state of main.py that the claims concern: the running
flag, runtime_mode, app.state.live_auth, the current_positions dict (its
positions and pnl entries), and the number of strategy_loop threads that have
been spawned and not yet exited. -/
structure SrvState where
  running : Bool
  mode : TradeMode
  live_auth : Option LAuth
  pubPositions : List MainPos
  pubPnl : ℚ
  loops : Nat
deriving DecidableEq

/-- State at interpreter start: running = False, current_positions = an empty
dict (so .get defaults of [] and 0.0 apply), no strategy thread. -/
def initState (m : TradeMode) (a : Option LAuth) : SrvState :=
  { running := false, mode := m, live_auth := a,
    pubPositions := [], pubPnl := 0, loops := 0 }

/-- One iteration of the try-block body of main.py strategy_loop.  The exc
oracle is Some message when any exception escapes the body: the except clause
logs it and leaves every piece of state unchanged.  Otherwise positions are
fetched per mode (live mode with missing auth logs a warning and uses []),
pnl is computed, and both entries of current_positions are written. -/
def stepIter (s : SrvState) (exc : Option String)
    (u : Except String (Nat × List MainPos)) : SrvState :=
  match exc with
  | some _ => s
  | none =>
    let positions :=
      match s.mode with
      | .paper => paper_fetch_positions
      | .live =>
        match s.live_auth with
        | none => []
        | some auth => live_fetch_positions auth u
    { s with pubPositions := positions, pubPnl := compute_pnl positions }

/-- main.py start_bot: under strategy_lock, if running then already_running,
else set running = True and spawn one strategy_loop thread. -/
def start_bot (s : SrvState) : SrvState × String :=
  if s.running then (s, "already_running")
  else ({ s with running := true, loops := s.loops + 1 }, "started")

/-- main.py stop_bot: under strategy_lock, set running = False; the thread
itself exits later when its while-condition re-checks running. -/
def stop_bot (s : SrvState) : SrvState × String :=
  ({ s with running := false }, "stopped")

instance instDecEqExcept {ε α : Type} [DecidableEq ε] [DecidableEq α] :
    DecidableEq (Except ε α)
  | .error e, .error f =>
    decidable_of_iff (e = f) ⟨fun h => by rw [h], fun h => by injection h⟩
  | .error _, .ok _ => isFalse (fun h => Except.noConfusion h)
  | .ok _, .error _ => isFalse (fun h => Except.noConfusion h)
  | .ok a, .ok b =>
    decidable_of_iff (a = b) ⟨fun h => by rw [h], fun h => by injection h⟩

/-- Events that touch the shared state: the control start and stop handlers,
the while-condition re-check of a strategy_loop thread (the thread exits when
running is False), one loop iteration body, and the totp handler storing a
fresh live_auth. -/
inductive Ev where
  | start
  | stop
  | loopCheck
  | iter (exc : Option String) (u : Except String (Nat × List MainPos))
  | setAuth (a : Option LAuth)
deriving DecidableEq

/-- Effect of one event on the shared state. -/
def stepEv (s : SrvState) : Ev → SrvState
  | .start => (start_bot s).1
  | .stop => (stop_bot s).1
  | .loopCheck => if s.running then s else { s with loops := s.loops - 1 }
  | .iter exc u => stepIter s exc u
  | .setAuth a => { s with live_auth := a }

/-- Run a sequence of events. -/
def runEvs (s : SrvState) (evs : List Ev) : SrvState := evs.foldl stepEv s

/-- States reachable from an interpreter start by any event interleaving. -/
inductive Reachable : SrvState → Prop where
  | init (m : TradeMode) (a : Option LAuth) : Reachable (initState m a)
  | step (s : SrvState) (e : Ev) : Reachable s → Reachable (stepEv s e)

/-- One row of the details list built by the control_positions handler. -/
structure PosDetail where
  symbol : String
  qty : Int
  avg_price : ℚ
  ltp : ℚ
  pnl : ℚ
deriving DecidableEq

/-- Response of GET /control/positions. -/
structure PositionsResp where
  positions : List PosDetail
  pnl : ℚ
  positions_count : Nat
deriving DecidableEq

/-- Sum of the pnl column, as the handler's total_pnl accumulation. -/
def sumPnl (l : List PosDetail) : ℚ := l.foldl (fun acc d => acc + d.pnl) 0

/-- main.py control_positions: reads current_positions once, builds one detail
row per position with a per-row rounded pnl, accumulates total_pnl, and
publishes the rounded total alongside the rows. -/
def control_positions (s : SrvState) : PositionsResp :=
  let details := s.pubPositions.map (fun p =>
    { symbol := p.symbol, qty := p.qty, avg_price := p.avg_price, ltp := p.ltp,
      pnl := pyRound2 ((p.ltp - p.avg_price) * (p.qty : ℚ)) : PosDetail })
  { positions := details, pnl := pyRound2 (sumPnl details),
    positions_count := details.length }

/-- Response of POST /control/panic. -/
inductive PanicResp where
  | errNoAuth
  | errIncomplete
  | sent (http : Nat) (body : String)
  | errException (msg : String)
deriving DecidableEq

/-- main.py control_panic: reads app.state.live_auth; 400 when absent, 400 when
jwtToken or sid is falsy, otherwise posts the cancel request (oracle u) and
reports its status or the raised exception.  The handler assigns no module
state, which the returned state component records. -/
def control_panic (s : SrvState) (u : Except String (Nat × String)) :
    SrvState × PanicResp :=
  match s.live_auth with
  | none => (s, .errNoAuth)
  | some auth =>
    match auth.jwtToken, auth.sid with
    | some jwt, some sid =>
      if jwt = "" ∨ sid = "" then (s, .errIncomplete)
      else
        match u with
        | .ok (st, body) => (s, .sent st body)
        | .error e => (s, .errException e)
    | _, _ => (s, .errIncomplete)

/-- telegram_bot.py save_live_auth_atomic: the JSON object written to
live_auth.json; the sid key is added only when sid is truthy. -/
def save_live_auth_atomic (jwt : String) (sid : Option String) : LAuth :=
  { jwtToken := some jwt,
    sid := match sid with
           | some s => if s = "" then none else some s
           | none => none }

/-- main.py load_live_auth_from_file: None when the file is absent, None when
the parsed dict lacks the jwtToken key, otherwise the parsed dict. -/
def load_live_auth_from_file (file : Option LAuth) : Option LAuth :=
  match file with
  | none => none
  | some d =>
    match d.jwtToken with
    | none => none
    | some _ => some d

/-- A calendar date in the proleptic Gregorian calendar, year at least 1 as in
Python datetime.date. -/
structure Date where
  year : Nat
  month : Nat
  day : Nat
deriving DecidableEq

/-- Gregorian leap year rule, as implemented by Python datetime. -/
def isLeap (y : Nat) : Bool :=
  y % 4 = 0 && (y % 100 ≠ 0 || y % 400 = 0)

/-- Length of a month; embeds the datetime arithmetic
next_month_first_day - one_day used by main.py last_thursday. -/
def daysInMonth (y m : Nat) : Nat :=
  if m = 2 then (if isLeap y then 29 else 28)
  else if m = 4 ∨ m = 6 ∨ m = 9 ∨ m = 11 then 30
  else 31

/-- Day count of a date (civil-from-days scheme), the linear day order that
underlies datetime date arithmetic and weekday. -/
def daysFromCivil (d : Date) : Nat :=
  let y := if d.month ≤ 2 then d.year - 1 else d.year
  let era := y / 400
  let yoe := y % 400
  let mp := if d.month > 2 then d.month - 3 else d.month + 9
  let doy := (153 * mp + 2) / 5 + d.day - 1
  let doe := yoe * 365 + yoe / 4 - yoe / 100 + doy
  era * 146097 + doe

/-- Python date.weekday: Monday = 0 ... Sunday = 6; the constant 2 calibrates
the epoch (1970-01-01 has weekday 3, Thursday). -/
def pyWeekday (d : Date) : Nat := (daysFromCivil d + 2) % 7

/-- main.py last_thursday: take the last day of the month and step back by
(weekday - 3) mod 7 days; Thursday has weekday 3.  The offset is at most 6 and
the last day of a month is at least 28, so the subtraction stays in the month. -/
def last_thursday (y m : Nat) : Date :=
  let ld := daysInMonth y m
  let offset := (pyWeekday { year := y, month := m, day := ld } + 4) % 7
  { year := y, month := m, day := ld - offset }

/-- main.py is_expiry_day: today equals the last Thursday of its own month. -/
def is_expiry_day (d : Date) : Bool :=
  if d = last_thursday d.year d.month then true else false

/-- A local wall-clock poll instant as read by expiry_force_exit_watcher. -/
structure LocalTime where
  date : Date
  hour : Nat
  minute : Nat
deriving DecidableEq

/-- Minutes elapsed at this instant on the linear day scale; used only to state
that a poll trace is chronological. -/
def timeKey (t : LocalTime) : Nat :=
  1440 * daysFromCivil t.date + 60 * t.hour + t.minute

/-- The midnight reset of expiry_force_exit_watcher: the triggered_today flag
clears when a poll lands in the minute 00:00. -/
def resetAtMidnight (trig : Bool) (t : LocalTime) : Bool :=
  if t.hour = 0 ∧ t.minute = 0 then false else trig

/-- Fire condition of expiry_force_exit_watcher: expiry day, flag not yet set,
and the poll lands in the minute 14:00. -/
def expiryFireCond (trig : Bool) (t : LocalTime) : Bool :=
  is_expiry_day t.date && !trig && decide (t.hour = 14) && decide (t.minute = 0)

/-- One poll of expiry_force_exit_watcher: apply the midnight reset, then fire
(and set the flag) when the fire condition holds.  Returns the new flag and
whether close_all_positions was invoked. -/
def watcherStep (trig : Bool) (t : LocalTime) : Bool × Bool :=
  let trig1 := resetAtMidnight trig t
  if expiryFireCond trig1 t then (true, true) else (trig1, false)

/-- Run the watcher over a poll trace; returns the final flag and the polls at
which close_all_positions fired. -/
def watcherRun : Bool → List LocalTime → Bool × List LocalTime
  | trig, [] => (trig, [])
  | trig, t :: ts =>
    let p := watcherStep trig t
    let r := watcherRun p.1 ts
    (r.1, if p.2 then t :: r.2 else r.2)

/-- One poll of the watcher seen at the level of the whole server state: the
watcher thread never reads or assigns running, the mode, the auth, or the
published snapshot, and close_all_positions only sends orders, so the server
state component is returned unchanged. -/
def watcherSysStep (s : SrvState) (trig : Bool) (t : LocalTime) :
    SrvState × Bool × Bool :=
  (s, watcherStep trig t)

/-- The session state that the spec's margin watchdog manipulates.
Modelled from the spec: no margin watchdog or lastError field exists in src;
this is the spec's SessionSnapshot restricted to the fields the margin
watchdog touches. -/
structure MarginSession where
  running : Bool
  lastError : Option String
deriving DecidableEq

/-- Modelled from the spec: SessionController.stop(reason) sets running to
false and records lastError = reason. -/
def specStop (reason : String) : MarginSession :=
  { running := false, lastError := some reason }

/-- Modelled from the spec: one margin-watchdog poll.  It only evaluates while
running; when the fetched margin is at most marginExitThreshold it calls
stop("margin critical: <value>").  The non-terminal alert band only notifies
and changes no session state. -/
def marginWatchPoll (s : MarginSession) (margin thr : Int) : MarginSession :=
  if s.running then
    if margin ≤ thr then specStop ("margin critical: " ++ toString margin)
    else s
  else s

/-- Substring occurrence, used to state that a stop reason mentions a term. -/
def strContains (hay needle : String) : Prop :=
  ∃ a b : String, hay = a ++ needle ++ b

/-- Raw entry of the Flattrade PositionBook response as read by
live_engine.py. -/
structure RawBrokerPos where
  tsym : String
  netqty : Int
  netavgprc : ℚ
deriving DecidableEq

/-- Output entry of live_engine.live_positions_with_pnl and, with side kept a
string as in the Python dicts, of paper_engine.paper_positions_with_pnl. -/
structure EnrichedPos where
  symbol : String
  side : String
  qty : Int
  avg : ℚ
  ltp : ℚ
  pnl : ℚ
deriving DecidableEq

/-- Loop body of live_positions_with_pnl for one raw entry whose ltp is known:
side from the sign of netqty, pnl per side, quantity published as the absolute
size, pnl rounded to 2 decimals. -/
def enrichLive (p : RawBrokerPos) (ltp : ℚ) : EnrichedPos :=
  let qty := p.netqty
  let side := if qty < 0 then "SELL" else "BUY"
  let avg := p.netavgprc
  let pnl := if side = "SELL" then (avg - ltp) * ((qty.natAbs : Int) : ℚ)
             else (ltp - avg) * (qty : ℚ)
  { symbol := p.tsym, side := side, qty := (qty.natAbs : Int), avg := avg,
    ltp := ltp, pnl := pyRound2 pnl }

/-- The for-loop of live_positions_with_pnl: entries with netqty 0 are
skipped; get_ltp may raise (the ltpOf oracle), which aborts the whole call. -/
def enrichLoop (ltpOf : String → Except String ℚ) :
    List RawBrokerPos → Except String (List EnrichedPos)
  | [] => .ok []
  | p :: ps =>
    if p.netqty = 0 then enrichLoop ltpOf ps
    else
      match ltpOf p.tsym with
      | .error e => .error e
      | .ok ltp =>
        match enrichLoop ltpOf ps with
        | .error e => .error e
        | .ok rest => .ok (enrichLive p ltp :: rest)

/-- live_engine.live_positions_with_pnl: raises RuntimeError when
live_auth.json is absent, raises KeyError when the dict lacks jwtToken, lets a
failure of the PositionBook call (the book oracle) propagate, and otherwise
enriches the book entries. -/
def live_positions_with_pnl (auth : Option LAuth)
    (book : Except String (List RawBrokerPos))
    (ltpOf : String → Except String ℚ) : Except String (List EnrichedPos) :=
  match auth with
  | none => .error "Live auth missing"
  | some a =>
    match a.jwtToken with
    | none => .error "KeyError: jwtToken"
    | some _ =>
      match book with
      | .error e => .error e
      | .ok ps => enrichLoop ltpOf ps

/-- True when an Except value is an error. -/
def isErr {ε α : Type} : Except ε α → Bool
  | .error _ => true
  | .ok _ => false

/-- Entry of paper_positions.json as read by paper_engine.py. -/
structure PaperRawPos where
  symbol : String
  side : String
  qty : Int
  avg : ℚ
deriving DecidableEq

/-- The for-loop of paper_positions_with_pnl: get_ltp may raise (the ltpOf
oracle); pnl per the side string, rounded to 2 decimals; the output dict keeps
every input field and adds ltp and pnl. -/
def paperEnrichLoop (ltpOf : String → Except String ℚ) :
    List PaperRawPos → Except String (List EnrichedPos)
  | [] => .ok []
  | p :: ps =>
    match ltpOf p.symbol with
    | .error e => .error e
    | .ok ltp =>
      let pnl := if p.side = "SELL" then (p.avg - ltp) * (p.qty : ℚ)
                 else (ltp - p.avg) * (p.qty : ℚ)
      match paperEnrichLoop ltpOf ps with
      | .error e => .error e
      | .ok rest =>
        .ok ({ symbol := p.symbol, side := p.side, qty := p.qty, avg := p.avg,
               ltp := ltp, pnl := pyRound2 pnl } :: rest)

/-- paper_engine.paper_positions_with_pnl: an absent paper_positions.json reads
as the empty list, then the enrichment loop runs. -/
def paper_positions_with_pnl (file : Option (List PaperRawPos))
    (ltpOf : String → Except String ℚ) : Except String (List EnrichedPos) :=
  paperEnrichLoop ltpOf (file.getD [])

/-! Helper lemmas. -/

theorem halfEvenInt_intCast (k : ℤ) : halfEvenInt ((k : ℤ) : ℚ) = k := by
  unfold halfEvenInt
  norm_num

theorem pyRound2_hundredth (k : ℤ) : pyRound2 ((k : ℚ) / 100) = (k : ℚ) / 100 := by
  unfold pyRound2
  rw [div_mul_cancel₀ (k : ℚ) (by norm_num : (100 : ℚ) ≠ 0), halfEvenInt_intCast]

theorem pyRound2_exists_hundredth (x : ℚ) : ∃ k : ℤ, pyRound2 x = (k : ℚ) / 100 :=
  ⟨halfEvenInt (x * 100), rfl⟩

theorem countP_le_of_imp {α : Type} (p q : α → Bool) :
    ∀ l : List α, (∀ a ∈ l, p a = true → q a = true) →
      List.countP p l ≤ List.countP q l := by
  intro l
  induction l with
  | nil => intro _; simp
  | cons a l ih =>
    intro h
    rw [List.countP_cons, List.countP_cons]
    have h1 : List.countP p l ≤ List.countP q l :=
      ih (fun b hb => h b (List.mem_cons_of_mem a hb))
    by_cases hp : p a = true
    · have hq : q a = true := h a (List.mem_cons_self a l) hp
      simp [hp, hq]
      omega
    · simp [hp]
      omega

theorem stepIter_frame (s : SrvState) (exc : Option String)
    (u : Except String (Nat × List MainPos)) :
    (stepIter s exc u).running = s.running ∧
      (stepIter s exc u).mode = s.mode ∧
      (stepIter s exc u).live_auth = s.live_auth ∧
      (stepIter s exc u).loops = s.loops := by
  cases exc
  all_goals simp [stepIter]

/-- Claim C1, counterexample: a strategy-loop iteration in which a fault is
raised (the except branch) leaves running true and the whole state untouched,
so the loop proceeds to another polling iteration; the claim states that
running would be false afterwards. -/
theorem c1_counterexample :
    (stepIter { running := true, mode := TradeMode.paper, live_auth := none,
                pubPositions := [], pubPnl := 0, loops := 1 }
        (some "upstream failure") (Except.error "boom")).running = true ∧
      stepIter { running := true, mode := TradeMode.paper, live_auth := none,
                 pubPositions := [], pubPnl := 0, loops := 1 }
          (some "upstream failure") (Except.error "boom") =
        { running := true, mode := TradeMode.paper, live_auth := none,
          pubPositions := [], pubPnl := 0, loops := 1 } :=
  ⟨rfl, rfl⟩

/-- Claim C1, amended: a fault raised inside a strategy-loop iteration is
caught by the except clause, which only logs it: the running flag is preserved
by every iteration, a faulting iteration changes no state at all, and in live
mode a missing credential is not a fault either; the iteration publishes an
empty position list and keeps running.  The loop therefore retries at the next
poll instead of stopping. -/
theorem c1_theorem :
    ∀ (s : SrvState) (exc : Option String) (e : String)
      (u : Except String (Nat × List MainPos)),
      (stepIter s exc u).running = s.running ∧
        stepIter s (some e) u = s ∧
        (stepIter { s with mode := TradeMode.live, live_auth := none } none u =
          { s with mode := TradeMode.live, live_auth := none,
                   pubPositions := [], pubPnl := compute_pnl [] }) := by
  intro s exc e u
  refine ⟨(stepIter_frame s exc u).1, rfl, ?_⟩
  simp [stepIter]

/-- Claim C5: the panic endpoint is read-only on the server state: for every
starting state and upstream outcome it returns the state unchanged (so
running, the trade mode and the published positions and pnl are preserved, and
a running strategy loop is still running afterwards), and it answers with an
error when live auth is absent or incomplete, otherwise with the outcome of
the single cancel request. -/
theorem c5_theorem :
    (∀ (s : SrvState) (u : Except String (Nat × String)),
        (control_panic s u).1 = s) ∧
      (∀ (b : Bool) (m : TradeMode) (pp : List MainPos) (pq : ℚ) (lp : Nat)
          (u : Except String (Nat × String)),
          (control_panic { running := b, mode := m, live_auth := none,
                           pubPositions := pp, pubPnl := pq, loops := lp }
              u).2 = PanicResp.errNoAuth) ∧
      (∀ (s : SrvState) (sid : Option String)
          (u : Except String (Nat × String)),
          (control_panic { s with live_auth := some { jwtToken := none, sid := sid } }
              u).2 = PanicResp.errIncomplete) ∧
      (∀ (s : SrvState) (jwt : String)
          (u : Except String (Nat × String)),
          (control_panic { s with live_auth := some { jwtToken := some jwt, sid := none } }
              u).2 = PanicResp.errIncomplete) ∧
      (∀ (s : SrvState) (jwt sid : String) (st : Nat) (body : String),
          jwt ≠ "" → sid ≠ "" →
          (control_panic { s with live_auth := some { jwtToken := some jwt, sid := some sid } }
              (Except.ok (st, body))).2 = PanicResp.sent st body) := by
  refine ⟨?_, ?_, ?_, ?_, ?_⟩
  · intro s u
    rcases s with ⟨b, m, a, pp, pq, lp⟩
    rcases a with _ | ⟨jt, sd⟩
    · rfl
    · rcases jt with _ | jwt <;> rcases sd with _ | sid <;>
        simp only [control_panic] <;>
        first
          | rfl
          | (split
             · rfl
             · rcases u with e | ⟨st, body⟩ <;> rfl)
  · intro b m pp pq lp u; rfl
  · intro s sid u; rfl
  · intro s jwt u; rfl
  · intro s jwt sid st body hj hs
    simp [control_panic, hj, hs]

/-- Claim C5, witness: instantiating the panic theorem at a concrete state with
no stored auth. -/
theorem c5_witness :
    (control_panic (initState TradeMode.paper none) (Except.error "net")).1 =
        initState TradeMode.paper none ∧
      (control_panic { running := true, mode := TradeMode.paper,
                       live_auth := none, pubPositions := [], pubPnl := 0,
                       loops := 1 } (Except.error "net")).2 = PanicResp.errNoAuth ∧
      (control_panic { initState TradeMode.paper none with
                       live_auth := some { jwtToken := some "J", sid := some "S" } }
          (Except.ok (200, "done"))).2 = PanicResp.sent 200 "done" :=
  ⟨c5_theorem.1 (initState TradeMode.paper none) (Except.error "net"),
   c5_theorem.2.1 true TradeMode.paper [] 0 1 (Except.error "net"),
   c5_theorem.2.2.2.2 (initState TradeMode.paper none) "J" "S" 200 "done"
     (by decide) (by decide)⟩

/-- Claim C9: stop is idempotent: it always returns stopped, a second stop
returns stopped again and leaves exactly the state the first stop produced,
and after a stop the running flag is false. -/
theorem c9_theorem :
    ∀ s : SrvState,
      (stop_bot s).2 = "stopped" ∧
        (stop_bot (stop_bot s).1).2 = "stopped" ∧
        (stop_bot (stop_bot s).1).1 = (stop_bot s).1 ∧
        (stop_bot s).1.running = false := by
  intro s
  refine ⟨rfl, rfl, ?_, rfl⟩
  simp [stop_bot]

/-- Claim C10, counterexample: a credential whose session id is present but
equal to the empty string does not round-trip: Python truthiness makes save
drop the sid key, so load returns a credential without a session id. -/
theorem c10_counterexample :
    load_live_auth_from_file (some (save_live_auth_atomic "tok" (some ""))) =
        some { jwtToken := some "tok", sid := none } ∧
      load_live_auth_from_file (some (save_live_auth_atomic "tok" (some ""))) ≠
        some { jwtToken := some "tok", sid := some "" } := by
  constructor
  · rfl
  · decide

/-- Claim C10, amended: saving a credential and loading it back returns a
credential equal in the secret token always, and equal in the session id
whenever the session id is present and non-empty (an empty-string session id
is falsy in Python and is dropped by save). -/
theorem c10_theorem :
    ∀ jwt : String,
      load_live_auth_from_file (some (save_live_auth_atomic jwt none)) =
          some { jwtToken := some jwt, sid := none } ∧
        ∀ s : String, s ≠ "" →
          load_live_auth_from_file (some (save_live_auth_atomic jwt (some s))) =
            some { jwtToken := some jwt, sid := some s } := by
  intro jwt
  constructor
  · rfl
  · intro s hs
    simp [save_live_auth_atomic, load_live_auth_from_file, hs]

/-- Claim C10, witness: the round trip at a concrete credential with a
non-empty session id. -/
theorem c10_witness :
    load_live_auth_from_file (some (save_live_auth_atomic "tok" (some "S1"))) =
      some { jwtToken := some "tok", sid := some "S1" } := by
  have h := c10_theorem "tok"
  exact h.2 "S1" (by decide)

/-- Claim C2: one margin-watchdog poll observed while running is true and the
fetched margin is at most marginExitThreshold leaves running false with a last
error that contains the word margin and the margin value.  The watchdog is
modelled from the spec because src contains no margin watchdog. -/
theorem c2_theorem :
    ∀ (s : MarginSession) (margin thr : Int),
      s.running = true → margin ≤ thr →
      (marginWatchPoll s margin thr).running = false ∧
        ∃ msg : String,
          (marginWatchPoll s margin thr).lastError = some msg ∧
            strContains msg "margin" ∧ strContains msg (toString margin) := by
  intro s margin thr hrun hle
  have hpoll : marginWatchPoll s margin thr =
      specStop ("margin critical: " ++ toString margin) := by
    simp [marginWatchPoll, hrun, hle]
  refine ⟨by rw [hpoll]; rfl, "margin critical: " ++ toString margin,
    by rw [hpoll]; rfl, ⟨"", " critical: " ++ toString margin, ?_⟩,
    ⟨"margin critical: ", "", ?_⟩⟩
  · have hlit : ("margin" : String) ++ " critical: " = "margin critical: " := by
      decide
    rw [String.empty_append, ← String.append_assoc, hlit]
  · rw [String.append_empty]

/-- Claim C2, witness: the spec's own example, threshold 150000 and a poll
returning margin 149999 while running. -/
theorem c2_witness :
    (marginWatchPoll { running := true, lastError := none } 149999 150000).running
        = false ∧
      ∃ msg : String,
        (marginWatchPoll { running := true, lastError := none } 149999
            150000).lastError = some msg ∧
          strContains msg "margin" ∧ strContains msg (toString (149999 : Int)) :=
  c2_theorem { running := true, lastError := none } 149999 150000 rfl (by decide)

theorem enrichLoop_ok_nil (ltpOf : String → Except String ℚ) :
    ∀ b : List RawBrokerPos, enrichLoop ltpOf b = Except.ok [] →
      ∀ p ∈ b, p.netqty = 0 := by
  intro b
  induction b with
  | nil => intro _ p hp; cases hp
  | cons q qs ih =>
    intro h p hp
    by_cases hq : q.netqty = 0
    · rw [enrichLoop, if_pos hq] at h
      rcases List.mem_cons.mp hp with rfl | hmem
      · exact hq
      · exact ih h p hmem
    · rw [enrichLoop, if_neg hq] at h
      rcases hl : ltpOf q.tsym with e | ltp
      · rw [hl] at h; cases h
      · rw [hl] at h
        rcases hr : enrichLoop ltpOf qs with e | rest
        · rw [hr] at h; cases h
        · rw [hr] at h
          cases h

/-- Claim C4, counterexample: main.py live_fetch_positions returns an empty
list as a successful result when the credential is absent, even though the
upstream would report an open position; the claim states that an absent
credential never yields an empty-list success. -/
theorem c4_counterexample :
    live_fetch_positions { jwtToken := none, sid := some "S1" }
        (Except.ok (200,
          [{ symbol := "FINNIFTY", qty := 65, avg_price := 100, ltp := 104 }])) =
      [] := rfl

/-- Claim C4, amended: live_engine.live_positions_with_pnl does satisfy the
claim: it raises when the credential file is absent or lacks the token, it
propagates a failure of the position-book call as an error, and a successful
empty-list result occurs only when every book entry has zero net quantity.
But main.py live_fetch_positions returns an empty list (indistinguishable from
zero open positions) whenever the token or session id is falsy, the call
raises, or the status is not 200. -/
theorem c4_theorem :
    (∀ (book : Except String (List RawBrokerPos))
        (ltpOf : String → Except String ℚ),
        live_positions_with_pnl none book ltpOf =
          Except.error "Live auth missing") ∧
      (∀ (sid : Option String) (book : Except String (List RawBrokerPos))
          (ltpOf : String → Except String ℚ),
          live_positions_with_pnl (some { jwtToken := none, sid := sid }) book
              ltpOf = Except.error "KeyError: jwtToken") ∧
      (∀ (a : LAuth) (e : String) (ltpOf : String → Except String ℚ),
          isErr (live_positions_with_pnl (some a) (Except.error e) ltpOf) =
            true) ∧
      (∀ (a : LAuth) (b : List RawBrokerPos)
          (ltpOf : String → Except String ℚ),
          live_positions_with_pnl (some a) (Except.ok b) ltpOf = Except.ok [] →
            ∀ p ∈ b, p.netqty = 0) ∧
      (∀ (sid : Option String) (u : Except String (Nat × List MainPos)),
          live_fetch_positions { jwtToken := none, sid := sid } u = []) ∧
      (∀ (jwt : Option String) (u : Except String (Nat × List MainPos)),
          live_fetch_positions { jwtToken := jwt, sid := none } u = []) ∧
      (∀ (a : LAuth) (e : String),
          live_fetch_positions a (Except.error e) = []) ∧
      (∀ (a : LAuth) (st : Nat) (body : List MainPos), st ≠ 200 →
          live_fetch_positions a (Except.ok (st, body)) = []) := by
  refine ⟨fun _ _ => rfl, fun _ _ _ => rfl, ?_, ?_, ?_, ?_, ?_, ?_⟩
  · intro a e ltpOf
    rcases a with ⟨jt, sd⟩
    cases jt <;> rfl
  · intro a b ltpOf h p hp
    rcases a with ⟨jt, sd⟩
    cases jt with
    | none => cases h
    | some jwt => exact enrichLoop_ok_nil ltpOf b h p hp
  · intro sid u; rfl
  · intro jwt u
    rcases jwt with _ | j <;> rfl
  · intro a e
    rcases a with ⟨jt, sd⟩
    rcases jt with _ | j <;> rcases sd with _ | sd' <;>
      simp [live_fetch_positions]
  · intro a st body hst
    rcases a with ⟨jt, sd⟩
    rcases jt with _ | j <;> rcases sd with _ | sd' <;>
      simp [live_fetch_positions, hst]

/-- Claim C4, witness: the amended theorem instantiated at concrete inputs: a
book whose only entry is flat yields the only empty-list success, and a 404
status yields an empty list from main.py live_fetch_positions. -/
theorem c4_witness :
    (∀ p ∈ [({ tsym := "X", netqty := 0, netavgprc := 10 } : RawBrokerPos)],
        p.netqty = 0) ∧
      live_fetch_positions { jwtToken := some "J", sid := some "S" }
          (Except.ok (404, [])) = [] :=
  ⟨c4_theorem.2.2.2.1 { jwtToken := some "J", sid := some "S" }
      [{ tsym := "X", netqty := 0, netavgprc := 10 }] (fun _ => Except.error "na")
      rfl,
   c4_theorem.2.2.2.2.2.2.2 { jwtToken := some "J", sid := some "S" } 404 []
     (by decide)⟩

theorem enrichLive_pnl (p : RawBrokerPos) (ltp : ℚ) (h : p.netqty ≠ 0) :
    ((enrichLive p ltp).side = "SELL" ∨ (enrichLive p ltp).side = "BUY") ∧
      0 < (enrichLive p ltp).qty ∧
      ((enrichLive p ltp).side = "SELL" →
        (enrichLive p ltp).pnl =
          pyRound2 (((enrichLive p ltp).avg - (enrichLive p ltp).ltp) *
            ((enrichLive p ltp).qty : ℚ))) ∧
      ((enrichLive p ltp).side = "BUY" →
        (enrichLive p ltp).pnl =
          pyRound2 (((enrichLive p ltp).ltp - (enrichLive p ltp).avg) *
            ((enrichLive p ltp).qty : ℚ))) := by
  have hqty : (0 : Int) < ((p.netqty.natAbs : Nat) : Int) := by
    exact_mod_cast Int.natAbs_pos.mpr h
  by_cases hneg : p.netqty < 0
  · refine ⟨Or.inl ?_, ?_, ?_, ?_⟩
    · simp [enrichLive, hneg]
    · simpa [enrichLive] using hqty
    · intro _
      simp [enrichLive, hneg]
    · intro hside
      simp [enrichLive, hneg] at hside
  · have hnn : (0 : ℤ) ≤ p.netqty := not_lt.mp hneg
    have habs : |(p.netqty : ℚ)| = (p.netqty : ℚ) :=
      abs_of_nonneg (by exact_mod_cast hnn)
    refine ⟨Or.inr ?_, ?_, ?_, ?_⟩
    · simp [enrichLive, hneg]
    · simpa [enrichLive] using hqty
    · intro hside
      simp [enrichLive, hneg] at hside
    · intro _
      simp [enrichLive, hneg, habs]

theorem enrichLoop_pnl (ltpOf : String → Except String ℚ) :
    ∀ (ps : List RawBrokerPos) (out : List EnrichedPos),
      enrichLoop ltpOf ps = Except.ok out → ∀ q ∈ out,
        ((q.side = "SELL" ∨ q.side = "BUY") ∧ 0 < q.qty ∧
          (q.side = "SELL" → q.pnl = pyRound2 ((q.avg - q.ltp) * (q.qty : ℚ))) ∧
          (q.side = "BUY" → q.pnl = pyRound2 ((q.ltp - q.avg) * (q.qty : ℚ)))) := by
  intro ps
  induction ps with
  | nil =>
    intro out h q hq
    rw [enrichLoop] at h
    cases h
    cases hq
  | cons p ps ih =>
    intro out h q hq
    by_cases hz : p.netqty = 0
    · rw [enrichLoop, if_pos hz] at h
      exact ih out h q hq
    · rw [enrichLoop, if_neg hz] at h
      rcases hl : ltpOf p.tsym with e | ltp
      · rw [hl] at h; cases h
      · rw [hl] at h
        rcases hr : enrichLoop ltpOf ps with e | rest
        · rw [hr] at h; cases h
        · rw [hr] at h
          cases h
          rcases List.mem_cons.mp hq with rfl | hmem
          · exact enrichLive_pnl p ltp hz
          · exact ih rest hr q hmem

theorem paperEnrichLoop_pnl (ltpOf : String → Except String ℚ) :
    ∀ (ps : List PaperRawPos) (out : List EnrichedPos),
      paperEnrichLoop ltpOf ps = Except.ok out → ∀ q ∈ out,
        ((q.side = "SELL" → q.pnl = pyRound2 ((q.avg - q.ltp) * (q.qty : ℚ))) ∧
          (q.side ≠ "SELL" → q.pnl = pyRound2 ((q.ltp - q.avg) * (q.qty : ℚ)))) := by
  intro ps
  induction ps with
  | nil =>
    intro out h q hq
    rw [paperEnrichLoop] at h
    cases h
    cases hq
  | cons p ps ih =>
    intro out h q hq
    rw [paperEnrichLoop] at h
    rcases hl : ltpOf p.symbol with e | ltp
    · rw [hl] at h; cases h
    · rw [hl] at h
      rcases hr : paperEnrichLoop ltpOf ps with e | rest
      · rw [hr] at h; cases h
      · rw [hr] at h
        cases h
        rcases List.mem_cons.mp hq with rfl | hmem
        · by_cases hs : p.side = "SELL"
          · exact ⟨fun _ => by simp [hs], fun hns => absurd hs hns⟩
          · exact ⟨fun hss => absurd hss hs, fun _ => by simp [hs]⟩
        · exact ih rest hr q hmem

/-- Claim C6: every position enriched by the live engine has side SELL or BUY,
a positive published quantity (the absolute held size), and a profit and loss
equal to (ltp - avg) * qty for BUY and (avg - ltp) * qty for SELL, rounded to
2 decimals; every position enriched by the paper engine satisfies the same
side formulas with respect to its published fields. -/
theorem c6_theorem :
    (∀ (auth : Option LAuth) (book : Except String (List RawBrokerPos))
        (ltpOf : String → Except String ℚ) (out : List EnrichedPos),
        live_positions_with_pnl auth book ltpOf = Except.ok out → ∀ q ∈ out,
          ((q.side = "SELL" ∨ q.side = "BUY") ∧ 0 < q.qty ∧
            (q.side = "SELL" →
              q.pnl = pyRound2 ((q.avg - q.ltp) * (q.qty : ℚ))) ∧
            (q.side = "BUY" →
              q.pnl = pyRound2 ((q.ltp - q.avg) * (q.qty : ℚ))))) ∧
      (∀ (file : Option (List PaperRawPos))
          (ltpOf : String → Except String ℚ) (out : List EnrichedPos),
          paper_positions_with_pnl file ltpOf = Except.ok out → ∀ q ∈ out,
            ((q.side = "SELL" →
                q.pnl = pyRound2 ((q.avg - q.ltp) * (q.qty : ℚ))) ∧
              (q.side ≠ "SELL" →
                q.pnl = pyRound2 ((q.ltp - q.avg) * (q.qty : ℚ))))) := by
  constructor
  · intro auth book ltpOf out h q hq
    rcases auth with _ | ⟨jt, sd⟩
    · exact Except.noConfusion h
    · rcases jt with _ | jwt
      · exact Except.noConfusion h
      · rcases book with e | ps
        · exact Except.noConfusion h
        · exact enrichLoop_pnl ltpOf ps out h q hq
  · intro file ltpOf out h q hq
    exact paperEnrichLoop_pnl ltpOf (file.getD []) out h q hq

/-- Claim C6, witness: the spec's example position (side SELL, qty 65, avg 100,
ltp 95) run through the paper engine yields pnl 325.00. -/
theorem c6_witness :
    paper_positions_with_pnl
        (some [{ symbol := "X", side := "SELL", qty := 65, avg := 100 }])
        (fun _ => Except.ok 95) =
      Except.ok [{ symbol := "X", side := "SELL", qty := 65, avg := 100,
                   ltp := 95, pnl := 325 }] ∧
      (325 : ℚ) = pyRound2 (((100 : ℚ) - 95) * ((65 : Int) : ℚ)) := by
  have hok : paper_positions_with_pnl
      (some [{ symbol := "X", side := "SELL", qty := 65, avg := 100 }])
      (fun _ => Except.ok 95) =
      Except.ok [{ symbol := "X", side := "SELL", qty := 65, avg := 100,
                   ltp := 95, pnl := 325 }] := by
    norm_num [paper_positions_with_pnl, paperEnrichLoop, pyRound2, halfEvenInt]
  refine ⟨hok, ?_⟩
  have h := (c6_theorem.2
      (some [{ symbol := "X", side := "SELL", qty := 65, avg := 100 }])
      (fun _ => Except.ok 95)
      [{ symbol := "X", side := "SELL", qty := 65, avg := 100,
         ltp := 95, pnl := 325 }] hok
      { symbol := "X", side := "SELL", qty := 65, avg := 100,
        ltp := 95, pnl := 325 } (List.mem_singleton.mpr rfl)).1 rfl
  exact h

theorem start_bot_running (s : SrvState) (h : s.running = true) :
    start_bot s = (s, "already_running") := by
  simp [start_bot, h]

theorem runEvs_no_stop (evs : List Ev) :
    ∀ s : SrvState, (∀ e ∈ evs, e ≠ Ev.stop) → s.running = true →
      (runEvs s evs).running = true ∧ (runEvs s evs).loops = s.loops := by
  induction evs with
  | nil => intro s _ h; exact ⟨h, rfl⟩
  | cons e es ih =>
    intro s hns hr
    have hne : e ≠ Ev.stop := hns e (List.mem_cons_self e es)
    have hns' : ∀ e' ∈ es, e' ≠ Ev.stop :=
      fun e' he' => hns e' (List.mem_cons_of_mem e he')
    have hstep : (stepEv s e).running = true ∧ (stepEv s e).loops = s.loops := by
      cases e with
      | start => simp [stepEv, start_bot, hr]
      | stop => exact absurd rfl hne
      | loopCheck => simp [stepEv, hr]
      | iter exc u =>
        exact ⟨((stepIter_frame s exc u).1).trans hr,
          (stepIter_frame s exc u).2.2.2⟩
      | setAuth a => simp [stepEv, hr]
    have h := ih (stepEv s e) hns' hstep.1
    exact ⟨h.1, h.2.trans hstep.2⟩

/-- Claim C7: from a fresh state, start returns started, sets running, and
spawns exactly one strategy loop; after that, under any further interleaving
of events that contains no stop, the number of live loop instances stays
exactly one and running stays true, and a second start call returns
already_running and spawns nothing. -/
theorem c7_theorem :
    ∀ (m : TradeMode) (a : Option LAuth) (evs : List Ev),
      (∀ e ∈ evs, e ≠ Ev.stop) →
      (start_bot (initState m a)).2 = "started" ∧
        (start_bot (initState m a)).1.running = true ∧
        (start_bot (initState m a)).1.loops = 1 ∧
        (runEvs (start_bot (initState m a)).1 evs).loops = 1 ∧
        (runEvs (start_bot (initState m a)).1 evs).running = true ∧
        (start_bot (runEvs (start_bot (initState m a)).1 evs)).2 =
          "already_running" ∧
        (start_bot (runEvs (start_bot (initState m a)).1 evs)).1 =
          runEvs (start_bot (initState m a)).1 evs := by
  intro m a evs hns
  have h1 : (start_bot (initState m a)).1.running = true := rfl
  have h2 : (start_bot (initState m a)).1.loops = 1 := rfl
  have h := runEvs_no_stop evs (start_bot (initState m a)).1 hns h1
  refine ⟨rfl, h1, h2, h.2.trans h2, h.1, ?_, ?_⟩
  · rw [start_bot_running _ h.1]
  · rw [start_bot_running _ h.1]

/-- Claim C7, witness: a start from the fresh paper state, a loop re-check,
then a second start: the second start reports already_running and the loop
count is still one. -/
theorem c7_witness :
    (start_bot (initState TradeMode.paper none)).2 = "started" ∧
      (start_bot (initState TradeMode.paper none)).1.running = true ∧
      (start_bot (initState TradeMode.paper none)).1.loops = 1 ∧
      (runEvs (start_bot (initState TradeMode.paper none)).1
          [Ev.loopCheck, Ev.start]).loops = 1 ∧
      (runEvs (start_bot (initState TradeMode.paper none)).1
          [Ev.loopCheck, Ev.start]).running = true ∧
      (start_bot (runEvs (start_bot (initState TradeMode.paper none)).1
          [Ev.loopCheck, Ev.start])).2 = "already_running" ∧
      (start_bot (runEvs (start_bot (initState TradeMode.paper none)).1
          [Ev.loopCheck, Ev.start])).1 =
        runEvs (start_bot (initState TradeMode.paper none)).1
          [Ev.loopCheck, Ev.start] :=
  c7_theorem TradeMode.paper none [Ev.loopCheck, Ev.start] (by decide)

theorem reachable_consistent (s : SrvState) (h : Reachable s) :
    s.pubPnl = compute_pnl s.pubPositions := by
  induction h with
  | init m a =>
    show (0 : ℚ) = compute_pnl []
    norm_num [compute_pnl, pyRound2, halfEvenInt]
  | step s e _ ih =>
    cases e with
    | start =>
      show ((start_bot s).1).pubPnl = compute_pnl ((start_bot s).1).pubPositions
      simp only [start_bot]
      split
      · exact ih
      · exact ih
    | stop => exact ih
    | loopCheck =>
      show (stepEv s Ev.loopCheck).pubPnl =
        compute_pnl (stepEv s Ev.loopCheck).pubPositions
      simp only [stepEv]
      split
      · exact ih
      · exact ih
    | iter exc u =>
      cases exc with
      | none => rfl
      | some e => exact ih
    | setAuth a => exact ih

theorem sumPnl_foldl_hundredths :
    ∀ (l : List PosDetail) (a : ℤ),
      (∀ d ∈ l, ∃ k : ℤ, d.pnl = (k : ℚ) / 100) →
      ∃ K : ℤ,
        l.foldl (fun acc d => acc + d.pnl) ((a : ℚ) / 100) = (K : ℚ) / 100 := by
  intro l
  induction l with
  | nil => exact fun a _ => ⟨a, rfl⟩
  | cons d ds ih =>
    intro a h
    obtain ⟨k, hk⟩ := h d (List.mem_cons_self d ds)
    have hstep : (a : ℚ) / 100 + d.pnl = ((a + k : ℤ) : ℚ) / 100 := by
      rw [hk, div_add_div_same]
      push_cast
      ring
    have h' : ∀ e ∈ ds, ∃ k : ℤ, e.pnl = (k : ℚ) / 100 :=
      fun e he => h e (List.mem_cons_of_mem d he)
    obtain ⟨K, hK⟩ := ih (a + k) h'
    refine ⟨K, ?_⟩
    calc List.foldl (fun acc d => acc + d.pnl) ((a : ℚ) / 100) (d :: ds)
        = List.foldl (fun acc d => acc + d.pnl) ((a : ℚ) / 100 + d.pnl) ds :=
          rfl
      _ = List.foldl (fun acc d => acc + d.pnl) (((a + k : ℤ) : ℚ) / 100) ds :=
          by rw [hstep]
      _ = ((K : ℤ) : ℚ) / 100 := hK

theorem control_positions_consistent (s : SrvState) :
    (control_positions s).pnl = sumPnl (control_positions s).positions := by
  have hall : ∀ d ∈ (control_positions s).positions,
      ∃ k : ℤ, d.pnl = (k : ℚ) / 100 := by
    intro d hd
    simp only [control_positions, List.mem_map] at hd
    obtain ⟨p, _, rfl⟩ := hd
    exact pyRound2_exists_hundredth _
  have hzero : (0 : ℚ) = ((0 : ℤ) : ℚ) / 100 := by norm_num
  obtain ⟨K, hK⟩ := sumPnl_foldl_hundredths (control_positions s).positions 0 hall
  have hsum : sumPnl (control_positions s).positions = ((K : ℤ) : ℚ) / 100 := by
    rw [sumPnl, hzero]
    exact hK
  have hpnl : (control_positions s).pnl =
      pyRound2 (sumPnl (control_positions s).positions) := rfl
  rw [hpnl, hsum, pyRound2_hundredth]

/-- Claim C8: in every reachable state the published pnl entry equals
compute_pnl of the published position list written in the same iteration, and
the positions endpoint publishes a total pnl equal to the sum of the
profitAndLoss values of exactly the position rows it publishes alongside. -/
theorem c8_theorem :
    ∀ s : SrvState, Reachable s →
      s.pubPnl = compute_pnl s.pubPositions ∧
        (control_positions s).pnl = sumPnl (control_positions s).positions :=
  fun s h => ⟨reachable_consistent s h, control_positions_consistent s⟩

/-- Claim C8, witness: the state reached by a start followed by one paper-mode
loop iteration satisfies both consistency equations. -/
theorem c8_witness :
    (stepEv (stepEv (initState TradeMode.paper none) Ev.start)
        (Ev.iter none (Except.error "net"))).pubPnl =
      compute_pnl (stepEv (stepEv (initState TradeMode.paper none) Ev.start)
        (Ev.iter none (Except.error "net"))).pubPositions ∧
      (control_positions (stepEv (stepEv (initState TradeMode.paper none)
          Ev.start) (Ev.iter none (Except.error "net")))).pnl =
        sumPnl (control_positions (stepEv (stepEv (initState TradeMode.paper
          none) Ev.start) (Ev.iter none (Except.error "net")))).positions :=
  c8_theorem _ (Reachable.step _ _ (Reachable.step _ _
    (Reachable.init TradeMode.paper none)))

theorem expiryFireCond_eq_true {trig : Bool} {t : LocalTime}
    (h : expiryFireCond trig t = true) :
    is_expiry_day t.date = true ∧ trig = false ∧ t.hour = 14 ∧ t.minute = 0 := by
  simp only [expiryFireCond, Bool.and_eq_true, Bool.not_eq_true',
    decide_eq_true_eq] at h
  exact ⟨h.1.1.1, h.1.1.2, h.1.2, h.2⟩

theorem watcherStep_fired {trig : Bool} {t : LocalTime}
    (h : (watcherStep trig t).2 = true) :
    watcherStep trig t = (true, true) ∧
      expiryFireCond (resetAtMidnight trig t) t = true := by
  by_cases hf : expiryFireCond (resetAtMidnight trig t) t = true
  · exact ⟨by simp [watcherStep, hf], hf⟩
  · simp [watcherStep, hf] at h

theorem watcherStep_not_fired {trig : Bool} {t : LocalTime}
    (h : ¬(watcherStep trig t).2 = true) :
    watcherStep trig t = (resetAtMidnight trig t, false) := by
  by_cases hf : expiryFireCond (resetAtMidnight trig t) t = true
  · exact absurd (by simp [watcherStep, hf]) h
  · simp [watcherStep, hf]

theorem watcherRun_cons (trig : Bool) (u : LocalTime) (us : List LocalTime) :
    (watcherRun trig (u :: us)).2 =
      if (watcherStep trig u).2 then u :: (watcherRun (watcherStep trig u).1 us).2
      else (watcherRun (watcherStep trig u).1 us).2 := rfl

theorem watcherRun_fires_future :
    ∀ (L : List LocalTime) (trig : Bool) (k : Nat),
      (∀ t ∈ L, 1440 * k + 840 < timeKey t) →
      ∀ t ∈ (watcherRun trig L).2, daysFromCivil t.date ≠ k := by
  intro L
  induction L with
  | nil =>
    intro trig k _ t ht
    simp [watcherRun] at ht
  | cons u us ih =>
    intro trig k hb t ht
    rw [watcherRun_cons] at ht
    by_cases hp : (watcherStep trig u).2 = true
    · rw [if_pos hp] at ht
      rcases List.mem_cons.mp ht with rfl | hmem
      · obtain ⟨_, hf⟩ := watcherStep_fired hp
        obtain ⟨_, _, hh, hm⟩ := expiryFireCond_eq_true hf
        intro hk
        have hlt := hb t (List.mem_cons_self t us)
        simp only [timeKey, hh, hm, hk] at hlt
        omega
      · exact ih (watcherStep trig u).1 k
          (fun v hv => hb v (List.mem_cons_of_mem u hv)) t hmem
    · rw [if_neg hp] at ht
      exact ih (watcherStep trig u).1 k
        (fun v hv => hb v (List.mem_cons_of_mem u hv)) t ht

theorem watcherRun_fires_flagged :
    ∀ L : List LocalTime,
      List.Pairwise (fun a b => timeKey a ≤ timeKey b) L →
      ∀ k : Nat, (∀ t ∈ L, 1440 * k + 840 ≤ timeKey t) →
      ∀ t ∈ (watcherRun true L).2, daysFromCivil t.date ≠ k := by
  intro L
  induction L with
  | nil =>
    intro _ k _ t ht
    simp [watcherRun] at ht
  | cons u us ih =>
    intro hpw k hb t ht
    obtain ⟨hu, hpw'⟩ := List.pairwise_cons.mp hpw
    rw [watcherRun_cons] at ht
    by_cases hmid : u.hour = 0 ∧ u.minute = 0
    · have hreset : resetAtMidnight true u = false := by
        simp [resetAtMidnight, hmid]
      have hf : expiryFireCond false u = false := by
        simp [expiryFireCond, hmid.1]
      have hstep : watcherStep true u = (false, false) := by
        simp [watcherStep, hreset, hf]
      rw [hstep] at ht
      simp only [Bool.false_eq_true, if_false] at ht
      have hdu : timeKey u = 1440 * daysFromCivil u.date := by
        simp [timeKey, hmid.1, hmid.2]
      have hbu := hb u (List.mem_cons_self u us)
      have hstrict : ∀ v ∈ us, 1440 * k + 840 < timeKey v := by
        intro v hv
        have h1 := hu v hv
        rw [hdu] at hbu h1
        omega
      exact watcherRun_fires_future us false k hstrict t ht
    · have hreset : resetAtMidnight true u = true := by
        simp [resetAtMidnight, hmid]
      have hf : expiryFireCond true u = false := by
        simp [expiryFireCond]
      have hstep : watcherStep true u = (true, false) := by
        simp [watcherStep, hreset, hf]
      rw [hstep] at ht
      simp only [Bool.false_eq_true, if_false] at ht
      exact ih hpw' k (fun v hv => hb v (List.mem_cons_of_mem u hv)) t ht

theorem watcherRun_day_count :
    ∀ L : List LocalTime,
      List.Pairwise (fun a b => timeKey a ≤ timeKey b) L →
      ∀ (trig : Bool) (k : Nat),
        ((watcherRun trig L).2.countP
          (fun t => decide (daysFromCivil t.date = k))) ≤ 1 := by
  intro L
  induction L with
  | nil =>
    intro _ trig k
    simp [watcherRun]
  | cons u us ih =>
    intro hpw trig k
    obtain ⟨hu, hpw'⟩ := List.pairwise_cons.mp hpw
    rw [watcherRun_cons]
    by_cases hp : (watcherStep trig u).2 = true
    · obtain ⟨hstep, hf⟩ := watcherStep_fired hp
      have h1 : (watcherStep trig u).1 = true := by rw [hstep]
      rw [if_pos hp, List.countP_cons, h1]
      by_cases hk : daysFromCivil u.date = k
      · obtain ⟨_, _, hh, hm⟩ := expiryFireCond_eq_true hf
        have hbu : timeKey u = 1440 * k + 840 := by
          simp only [timeKey, hh, hm, hk]
        have hnok : ∀ t ∈ (watcherRun true us).2, daysFromCivil t.date ≠ k := by
          refine watcherRun_fires_flagged us hpw' k ?_
          intro v hv
          have h2 := hu v hv
          rw [hbu] at h2
          exact h2
        have hzero : (watcherRun true us).2.countP
            (fun t => decide (daysFromCivil t.date = k)) = 0 :=
          List.countP_eq_zero.mpr (fun a ha => by simpa using hnok a ha)
        rw [hzero]
        simp [hk]
      · have hcount := ih hpw' true k
        simp only [hk, decide_eq_true_eq, if_false]
        simpa [hk] using hcount
    · have hstep := watcherStep_not_fired hp
      have h1 : (watcherStep trig u).1 = resetAtMidnight trig u := by rw [hstep]
      rw [if_neg hp, h1]
      exact ih hpw' (resetAtMidnight trig u) k

theorem watcherRun_fires_shape :
    ∀ (L : List LocalTime) (trig : Bool) (t : LocalTime),
      t ∈ (watcherRun trig L).2 →
      t.hour = 14 ∧ t.minute = 0 ∧
        t.date = last_thursday t.date.year t.date.month := by
  intro L
  induction L with
  | nil =>
    intro trig t ht
    simp [watcherRun] at ht
  | cons u us ih =>
    intro trig t ht
    rw [watcherRun_cons] at ht
    by_cases hp : (watcherStep trig u).2 = true
    · rw [if_pos hp] at ht
      rcases List.mem_cons.mp ht with rfl | hmem
      · obtain ⟨_, hf⟩ := watcherStep_fired hp
        obtain ⟨hex, _, hh, hm⟩ := expiryFireCond_eq_true hf
        refine ⟨hh, hm, ?_⟩
        by_contra hne
        simp [is_expiry_day, hne] at hex
      · exact ih (watcherStep trig u).1 t hmem
    · rw [if_neg hp] at ht
      exact ih (watcherStep trig u).1 t ht

/-- Claim C3, counterexample: on the last Thursday of October 2025 at 14:00
the watcher fires regardless of running: it fires from a state in which
running is true and leaves running true (the claim says firing leaves running
false), and it also fires from a state in which running is false (the claim
says it fires only while trading is running). -/
theorem c3_counterexample :
    (watcherSysStep
        { running := true, mode := TradeMode.paper, live_auth := none,
          pubPositions := [], pubPnl := 0, loops := 1 }
        false
        { date := { year := 2025, month := 10, day := 30 }, hour := 14,
          minute := 0 }).2.2 = true ∧
      (watcherSysStep
          { running := true, mode := TradeMode.paper, live_auth := none,
            pubPositions := [], pubPnl := 0, loops := 1 }
          false
          { date := { year := 2025, month := 10, day := 30 }, hour := 14,
            minute := 0 }).1.running = true ∧
      (watcherSysStep
          { running := false, mode := TradeMode.paper, live_auth := none,
            pubPositions := [], pubPnl := 0, loops := 0 }
          false
          { date := { year := 2025, month := 10, day := 30 }, hour := 14,
            minute := 0 }).2.2 = true := by
  refine ⟨by decide, rfl, by decide⟩

/-- Claim C3, amended: over any chronological poll trace the expiry watcher
invokes the forced close at most once per calendar date; every firing poll
lies in the minute 14:00 of the last Thursday of its month (the computed
expiry date) with the triggered_today flag clear, the flag resetting only at
polls that land in the minute 00:00; and the watcher neither consults nor
changes running (firing closes positions but stops nothing), so no reset is
tied to running transitions. -/
theorem c3_theorem :
    (∀ (L : List LocalTime) (trig : Bool),
        List.Pairwise (fun a b => timeKey a ≤ timeKey b) L →
        ∀ D : Date,
          ((watcherRun trig L).2.countP (fun t => decide (t.date = D))) ≤ 1) ∧
      (∀ (L : List LocalTime) (trig : Bool) (t : LocalTime),
          t ∈ (watcherRun trig L).2 →
          t.hour = 14 ∧ t.minute = 0 ∧
            t.date = last_thursday t.date.year t.date.month) ∧
      (∀ (s : SrvState) (trig : Bool) (t : LocalTime),
          (watcherSysStep s trig t).1 = s) := by
  refine ⟨?_, ?_, ?_⟩
  · intro L trig hpw D
    have himp : ∀ a ∈ (watcherRun trig L).2,
        decide (a.date = D) = true →
          decide (daysFromCivil a.date = daysFromCivil D) = true := by
      intro a _ ha
      simp only [decide_eq_true_eq] at ha ⊢
      rw [ha]
    exact le_trans
      (countP_le_of_imp (fun t => decide (t.date = D))
        (fun t => decide (daysFromCivil t.date = daysFromCivil D))
        (watcherRun trig L).2 himp)
      (watcherRun_day_count L hpw trig (daysFromCivil D))
  · exact fun L trig t ht => watcherRun_fires_shape L trig t ht
  · intro s trig t
    rfl

/-- Claim C3, witness: three chronological polls inside the 14:00 trigger
minute and the next minute of the October 2025 expiry day fire at most once. -/
theorem c3_witness :
    ((watcherRun false
        [{ date := { year := 2025, month := 10, day := 30 }, hour := 14,
           minute := 0 },
         { date := { year := 2025, month := 10, day := 30 }, hour := 14,
           minute := 0 },
         { date := { year := 2025, month := 10, day := 30 }, hour := 14,
           minute := 1 }]).2.countP
      (fun t => decide (t.date = { year := 2025, month := 10, day := 30 }))) ≤
      1 :=
  c3_theorem.1
    [{ date := { year := 2025, month := 10, day := 30 }, hour := 14,
       minute := 0 },
     { date := { year := 2025, month := 10, day := 30 }, hour := 14,
       minute := 0 },
     { date := { year := 2025, month := 10, day := 30 }, hour := 14,
       minute := 1 }] false (by decide)
    { year := 2025, month := 10, day := 30 }
